import Mathlib

/-!
Verification of the TestWiz quiz generation, scoring and evaluation pipeline.

The definitions below are a shallow embedding of the backend source
(`src/unnamed/part_000`; the hosted-API and Ollama variants are identical on
everything modelled here).  JavaScript strings are modelled as `List Char`
(with `String` wrappers where the source works on whole strings), JSON values
as an inductive `Json`, machine reals as `ℚ`, and external runtime builtins
(`JSON.parse`, `String(v)` coercion, `uuidv4`) as explicit function
parameters, since they are not repository code.
-/

set_option maxRecDepth 8000

/-- The JavaScript `\s` character class (ECMA-262 WhiteSpace ∪ LineTerminator),
used by `String.prototype.trim` and the `/\s+/g` replace in `cleanText`. -/
def wsB (c : Char) : Bool :=
  let n := c.toNat
  n = 0x09 || n = 0x0A || n = 0x0B || n = 0x0C || n = 0x0D || n = 0x20 ||
  n = 0xA0 || n = 0x1680 || (0x2000 ≤ n && n ≤ 0x200A) || n = 0x2028 ||
  n = 0x2029 || n = 0x202F || n = 0x205F || n = 0x3000 || n = 0xFEFF

/-- ASCII control characters removed by `cleanText`: `/[\x00-\x1F\x7F]/g`. -/
def ctlB (c : Char) : Bool :=
  c.toNat ≤ 0x1F || c.toNat = 0x7F

/-- The characters normalized to a space by `cleanText`'s second replace:
U+00A0, U+200B through U+200F, U+2028, U+2029, U+FEFF. -/
def sepB (c : Char) : Bool :=
  let n := c.toNat
  n = 0xA0 || (0x200B ≤ n && n ≤ 0x200F) || n = 0x2028 || n = 0x2029 || n = 0xFEFF

/-- Remove a maximal trailing run of JS whitespace (the trailing half of
`String.prototype.trim`). -/
def dropTrail : List Char → List Char
  | [] => []
  | c :: t =>
    let r := dropTrail t
    if r.isEmpty then (if wsB c then [] else [c]) else c :: r

/-- JS `String.prototype.trim` on character lists. -/
def jsTrim (l : List Char) : List Char :=
  dropTrail (l.dropWhile wsB)

/-- `text.replace(/[\n\r]/g, ' ')` (first step of `cleanText`). -/
def nlToSpace (l : List Char) : List Char :=
  l.map (fun c => if c = '\n' || c = '\r' then ' ' else c)

/-- The second step of `cleanText`: replace each of the separator characters
above by an ordinary space. -/
def sepToSpace (l : List Char) : List Char :=
  l.map (fun c => if sepB c then ' ' else c)

/-- `text.replace(/\s+/g, ' ')`: replace every maximal run of JS whitespace by
one space.  The boolean records whether the previous character was part of a
whitespace run already replaced. -/
def collapse : Bool → List Char → List Char
  | _, [] => []
  | sawWs, c :: t =>
    if wsB c then
      (if sawWs then collapse true t else ' ' :: collapse true t)
    else c :: collapse false t

/-- `cleaned.replace(/[\x00-\x1F\x7F]/g, '')` (last step of `cleanText`). -/
def removeCtl (l : List Char) : List Char :=
  l.filter (fun c => !ctlB c)

/-- The per-field cleaner `cleanText` from `generateQuizWithAI` (the spec's
`cleanFieldText`), on character lists: newlines to spaces, Unicode
space-like/zero-width separators to spaces, collapse `\s+` runs and trim,
then strip ASCII control characters. -/
def cleanTextL (l : List Char) : List Char :=
  removeCtl (jsTrim (collapse false (sepToSpace (nlToSpace l))))

/-- The source's `cleanText` on strings (applied to every extracted
question/answer/explanation/option string). -/
def cleanText (s : String) : String :=
  String.mk (cleanTextL s.data)

/-- The leading-fence strip of the sanitizer:
`if (s.startsWith('```json')) s = s.substring(7).trim();
else if (s.startsWith('```')) s = s.substring(3).trim();`. -/
def stripLead (t : List Char) : List Char :=
  if t.take 7 = "```json".data then jsTrim (t.drop 7)
  else if t.take 3 = "```".data then jsTrim (t.drop 3)
  else t

/-- The trailing-fence strip of the sanitizer:
`if (s.endsWith('```')) s = s.substring(0, s.length - 3).trim();`. -/
def stripTrailFence (t1 : List Char) : List Char :=
  if t1.reverse.take 3 = "```".data then jsTrim ((t1.reverse.drop 3).reverse)
  else t1

/-- The markdown-fence sanitizer shared by `generateQuizWithAI` and
`evaluateDescriptiveAnswer`: trim, strip one leading ` ```json ` or ` ``` `
fence (re-trimming), then strip one trailing ` ``` ` fence (re-trimming). -/
def stripFencesL (l : List Char) : List Char :=
  stripTrailFence (stripLead (jsTrim l))

/-- The fence sanitizer on strings (the spec's `clean`). -/
def stripFences (s : String) : String :=
  String.mk (stripFencesL s.data)

/-- JS `toUpperCase` restricted to the characters the comparators see
(ASCII case mapping), on character lists. -/
def upperL (l : List Char) : List Char :=
  l.map Char.toUpper

/-- `userAnswerMatchesMCQ(question, userAnswer)`:
`userAnswer.trim().toUpperCase() === question.answer.trim().toUpperCase().split('.')[0]`. -/
def userAnswerMatchesMCQ (answer userAnswer : String) : Bool :=
  upperL (jsTrim userAnswer.data) =
    List.takeWhile (fun c => c ≠ '.') (upperL (jsTrim answer.data))

/-- JS `toLowerCase` (ASCII case mapping), on character lists. -/
def lowerL (l : List Char) : List Char :=
  l.map Char.toLower

/-- `userAnswerMatchesFIB(question, userAnswer)`:
`userAnswer.trim().toLowerCase() === question.answer.trim().toLowerCase()`. -/
def userAnswerMatchesFIB (answer userAnswer : String) : Bool :=
  lowerL (jsTrim userAnswer.data) = lowerL (jsTrim answer.data)

/-- The claim's reading of the multiple-choice comparator, following the
spec's words: the user answer (trimmed, upper-cased) is compared to the
leading token of `question.answer` before the first `'.'`, that token *also*
being trimmed and upper-cased. -/
def matchesMCQspec (answer userAnswer : String) : Bool :=
  upperL (jsTrim userAnswer.data) =
    upperL (jsTrim (List.takeWhile (fun c => c ≠ '.') answer.data))

/-- JSON values as produced by `JSON.parse`: objects are ordered key-value
lists (JS object keys are unique and ordered). -/
inductive Json where
  | null : Json
  | bool (b : Bool) : Json
  | num (q : ℚ) : Json
  | str (s : String) : Json
  | arr (l : List Json) : Json
  | obj (kvs : List (String × Json)) : Json

/-- JS truthiness of a JSON value (`undefined` is represented by a missing
key, i.e. `Option.none` at use sites). -/
def jsTruthy : Json → Bool
  | .null => false
  | .bool b => b
  | .num q => !(q = 0)
  | .str s => !(s = "")
  | .arr _ => true
  | .obj _ => true

/-- Property access `v.key` on a JSON value: a lookup for objects, `undefined`
(here `none`) for every other value. -/
def getField (j : Json) (k : String) : Option Json :=
  match j with
  | .obj kvs => kvs.lookup k
  | _ => none

/-- Whether a JSON value is an array (`Array.isArray`). -/
def isArr : Json → Bool
  | .arr _ => true
  | _ => false

/-- The result object of `evaluateDescriptiveAnswer`. -/
structure EvalData where
  score : ℚ
  feedback : String
  correct_parts : String
  improvements : String
deriving DecidableEq

/-- The validate-and-repair step of `evaluateDescriptiveAnswer` applied to a
successfully parsed JSON reply: if `score` is a number and `feedback`,
`correct_parts`, `improvements` are strings, clamp the score with
`Math.max(0, Math.min(10, score))`; otherwise build the best-effort partial
object with `N/A` / zero defaults (no clamping there). -/
def validateRepair (j : Json) : EvalData :=
  let s? : Option ℚ := match getField j "score" with
    | some (.num q) => some q
    | _ => none
  let fb? : Option String := match getField j "feedback" with
    | some (.str s) => some s
    | _ => none
  let cp? : Option String := match getField j "correct_parts" with
    | some (.str s) => some s
    | _ => none
  let im? : Option String := match getField j "improvements" with
    | some (.str s) => some s
    | _ => none
  match s?, fb?, cp?, im? with
  | some s, some fb, some cp, some im =>
    { score := max 0 (min 10 s)
      feedback := fb
      correct_parts := cp
      improvements := im }
  | _, _, _, _ =>
    { score := s?.getD 0
      feedback := match fb? with
        | some f => "Partial evaluation: " ++ f
        | none => "Failed to parse full AI evaluation."
      correct_parts := cp?.getD "N/A"
      improvements := im?.getD "N/A" }

/-- The post-processing of a raw grading reply inside
`evaluateDescriptiveAnswer`: strip fences, `JSON.parse` (the abstract `parse`
parameter), then validate/repair; a complete parse failure yields the default
error object whose feedback quotes the first 100 characters of the raw
response. -/
def evalAnswerPost (parse : String → Option Json) (raw : String) : EvalData :=
  match parse (stripFences raw) with
  | none =>
    { score := 0
      feedback := "Automated evaluation failed: Could not parse AI response. Raw response starts with: \"" ++ raw.take 100 ++ "...\""
      correct_parts := "N/A"
      improvements := "N/A" }
  | some j => validateRepair j

/-- `evaluateDescriptiveAnswer`, as a function of the provider call's outcome
(`Except.error` carries the normalized `errorMessage` the catch block
builds): a provider-level failure returns the default error object instead of
throwing, a reply goes through `evalAnswerPost`. -/
def evaluateDescriptiveAnswer (parse : String → Option Json)
    (outcome : Except String String) : EvalData :=
  match outcome with
  | .error msg =>
    { score := 0
      feedback := "Automated evaluation failed: " ++ msg
      correct_parts := "N/A"
      improvements := "N/A" }
  | .ok raw => evalAnswerPost parse raw

/-- `quizData.questions` extraction with the source's validation shape: the
parsed value must be an object carrying a `questions` key holding an array
(`!quizData || !Array.isArray(quizData.questions)` fails for every other
JSON value). -/
def questionsArr (j : Json) : Option (List Json) :=
  match getField j "questions" with
  | some (.arr l) => some l
  | _ => none

/-- `cleanText` as applied to a JSON field value: strings are cleaned,
every other value is returned unchanged (`if (typeof text !== 'string')
return text`). -/
def cleanJsonStr : Json → Json
  | .str s => .str (cleanText s)
  | v => v

/-- The per-question cleaning pass of `generateQuizWithAI`: clean the
`question`, `answer`, `explanation` fields and, when `options` is an array,
each of its entries; all other keys (and a truthy non-array `options`) are
kept as they are.  A non-object question spreads to an empty object. -/
def cleanQ : Json → Json
  | .obj kvs => .obj (kvs.map (fun kv =>
      if kv.1 = "question" || kv.1 = "answer" || kv.1 = "explanation" then
        (kv.1, cleanJsonStr kv.2)
      else if kv.1 = "options" then
        (kv.1, match kv.2 with
          | .arr l => .arr (l.map cleanJsonStr)
          | v => v)
      else kv))
  | _ => .obj []

/-- The id-assignment pass of `generateQuizWithAI`:
`id: q.id ? String(q.id) : uuidv4()`.  `jsString` is the JS `String(v)`
coercion and `fresh` the `uuidv4()` result, both runtime builtins passed in
explicitly. -/
def assignId (jsString : Json → String) (fresh : String) : Json → Json
  | .obj kvs =>
    if (kvs.lookup "id").isSome then
      .obj (kvs.map (fun kv =>
        if kv.1 = "id" then
          ("id", Json.str (if jsTruthy kv.2 then jsString kv.2 else fresh))
        else kv))
    else .obj (kvs ++ [("id", Json.str fresh)])
  | _ => .obj [("id", Json.str fresh)]

/-- The parse/validate/clean step of `generateQuizWithAI` on the raw provider
text: strip fences, `JSON.parse`, require a non-empty `questions` array, then
clean every question and assign ids.  Errors carry the 100-character excerpt
of the raw response that the thrown message quotes.  The requested question
count is never consulted here, exactly as in the source. -/
def quizParseStep (parse : String → Option Json) (jsString : Json → String)
    (fresh : ℕ → String) (raw : String) : Except String (List Json) :=
  match parse (stripFences raw) with
  | none => .error (raw.take 100)
  | some j =>
    match questionsArr j with
    | none => .error (raw.take 100)
    | some qs =>
      if qs.isEmpty then .error (raw.take 100)
      else .ok ((qs.map cleanQ).mapIdx (fun i q => assignId jsString (fresh i) q))

/-- The redaction in `GET /quiz/:quizId`:
`const { answer, explanation, options, ...rest } = q;
return { ...rest, options: options || [] }`. -/
def redactQuestion (q : List (String × Json)) : List (String × Json) :=
  (q.filter (fun kv =>
    !(kv.1 = "answer" || kv.1 = "explanation" || kv.1 = "options"))) ++
  [("options",
    match q.lookup "options" with
    | some v => if jsTruthy v then v else Json.arr []
    | none => Json.arr [])]

/-- Redaction lifted to a JSON question value; destructuring a non-object
leaves an empty rest. -/
def redactQ : Json → Json
  | .obj kvs => .obj (redactQuestion kvs)
  | _ => .obj [("options", Json.arr [])]

/-- `questionsForFrontend`: the stored questions with answer keys redacted. -/
def questionsForFrontend (qs : List Json) : List Json :=
  qs.map redactQ

/-- JS `trim` on strings. -/
def jsTrimS (s : String) : String :=
  String.mk (jsTrim s.data)

/-- A stored question as the submission loop reads it (the loop accesses
exactly the fields `id`, `question`, `type`, `answer`, `explanation`). -/
structure StoredQ where
  id : String
  question : String
  qtype : String
  answer : String
  explanation : String
deriving DecidableEq

/-- One entry of `evaluationResults` in `POST /submit-quiz/:quizId`. -/
structure QResult where
  question : String
  rtype : String
  correct_answer : String
  explanation : String
  user_answer : String
  extracted_pdf_text_used : String
  score : ℚ
  feedback : String
  correct_parts : String
  improvements : String
  is_correct : Bool
deriving DecidableEq

/-- One iteration of the evaluation loop of `POST /submit-quiz/:quizId`.
`answers` is the multipart request body (`none` for a missing
`answer_<id>` field), `pdfText` the OCR result, and `descEval` the
`evaluateDescriptiveAnswer` call (which, per its contract, never throws). -/
def evalOne (descEval : StoredQ → String → String → EvalData)
    (pdfText : String) (answers : String → Option String)
    (q : StoredQ) : QResult :=
  let ans := (answers ("answer_" ++ q.id)).getD ""
  let base : QResult :=
    { question := q.question
      rtype := q.qtype
      correct_answer := q.answer
      explanation := q.explanation
      user_answer := ans
      extracted_pdf_text_used :=
        if pdfText = "" then "No text extracted or uploaded." else pdfText
      score := 0
      feedback := "Not evaluated"
      correct_parts := "N/A"
      improvements := "N/A"
      is_correct := false }
  if q.qtype = "MCQ" || q.qtype = "FIB" then
    let ok := if q.qtype = "MCQ" then userAnswerMatchesMCQ q.answer ans
              else userAnswerMatchesFIB q.answer ans
    { base with
      is_correct := ok
      score := if ok then 10 else 0
      feedback := if ok then "Correct." else "Incorrect."
      correct_parts := if ok then q.answer else "N/A"
      improvements :=
        if ok then "N/A" else "The correct answer is " ++ q.answer ++ "." }
  else if q.qtype = "Descriptive" then
    if jsTrimS ans ≠ "" ∨ jsTrimS pdfText ≠ "" then
      let e := descEval q ans pdfText
      { base with
        score := e.score
        feedback := e.feedback
        correct_parts := e.correct_parts
        improvements := e.improvements }
    else
      { base with
        feedback := "No answer text provided."
        improvements := "Provide a written or typed answer." }
  else
    { base with
      feedback := "Skipped: Unknown question type \"" ++ q.qtype ++ "\"." }

/-- The whole evaluation loop: one result per stored question, in order. -/
def evalLoop (descEval : StoredQ → String → String → EvalData)
    (pdfText : String) (answers : String → Option String)
    (qs : List StoredQ) : List QResult :=
  qs.map (evalOne descEval pdfText answers)

/-- `totalScore` accumulated by the loop. -/
def submitTotal (results : List QResult) : ℚ :=
  (results.map QResult.score).sum

/-- `overallPercentage = maxPossibleScore ? (totalScore / maxPossibleScore) * 100 : 0`
with `maxPossibleScore = originalQuestions.length * 10`; this is the value
persisted in the `results` table. -/
def overallPercentage (descEval : StoredQ → String → String → EvalData)
    (pdfText : String) (answers : String → Option String)
    (qs : List StoredQ) : ℚ :=
  let maxPossibleScore : ℚ := (qs.length : ℚ) * 10
  if maxPossibleScore = 0 then 0
  else submitTotal (evalLoop descEval pdfText answers qs) / maxPossibleScore * 100

/-- `parseFloat(overallPercentage.toFixed(2))`: the response's `score` field,
rounded to two decimal places. -/
def jsToFixed2 (q : ℚ) : ℚ :=
  (round (q * 100) : ℤ) / 100

/-- Result of `POST /combined-exam` as far as the claims reach. -/
inductive CombinedResp where
  | validationErr : CombinedResp
  | genFailed : CombinedResp
  | ok (qs : List Json) : CombinedResp

/-- Questions contributed by one per-type sub-generation: a type with a
non-positive requested count is skipped, a failing sub-call is logged and
contributes nothing, a successful one contributes its questions. -/
def subGen (n : ℤ) (g : Except String (List Json)) : List Json :=
  if 0 < n then (match g with | .ok qs => qs | .error _ => []) else []

/-- `POST /combined-exam` after parameter parsing: counts are the already
`parseInt`-ed `num_mcq`/`num_fib`/`num_descriptive`, `gMCQ`/`gFIB`/`gDesc`
the outcomes of the three `generateQuizWithAI` sub-calls.  The second
component lists the sub-generations actually attempted, in source order, so
the empty list witnesses that validation rejected before any provider call. -/
def combinedExam (numMCQ numFIB numDesc : ℤ)
    (gMCQ gFIB gDesc : Except String (List Json)) :
    CombinedResp × List String :=
  let totalQuestions := numMCQ + numFIB + numDesc
  if totalQuestions ≤ 0 || 30 < totalQuestions then (.validationErr, [])
  else
    let allQuestions :=
      subGen numMCQ gMCQ ++ subGen numFIB gFIB ++ subGen numDesc gDesc
    let attempted :=
      (if 0 < numMCQ then ["MCQ"] else []) ++
      (if 0 < numFIB then ["FIB"] else []) ++
      (if 0 < numDesc then ["Descriptive"] else [])
    (if allQuestions.isEmpty ∧ 0 < totalQuestions then .genFailed
     else .ok allQuestions, attempted)

/-! ### Character-level facts -/

theorem toNat_ofNat_valid (m : Nat) (h : m < 0xd800) : (Char.ofNat m).toNat = m := by
  rw [Char.ofNat, dif_pos (Or.inl h)]
  show (Char.ofNatAux m (Or.inl h)).val.toNat = m
  rw [Char.ofNatAux]
  simp [Char.toNat, UInt32.toNat]

theorem toUpper_eq_dot (c : Char) : (c.toUpper = '.') ↔ (c = '.') := by
  constructor
  · intro h
    rw [Char.toUpper] at h
    by_cases hl : 97 ≤ c.toNat ∧ c.toNat ≤ 122
    · rw [if_pos hl] at h
      have h2 : (Char.ofNat (c.toNat - 32)).toNat = c.toNat - 32 :=
        toNat_ofNat_valid _ (by omega)
      rw [h] at h2
      have : ('.').toNat = 46 := rfl
      omega
    · rwa [if_neg hl] at h
  · intro h
    subst h
    rfl

theorem wsB_toUpper (c : Char) : wsB c.toUpper = wsB c := by
  rw [Char.toUpper]
  by_cases hl : 97 ≤ c.toNat ∧ c.toNat ≤ 122
  · rw [if_pos hl]
    have h2 : (Char.ofNat (c.toNat - 32)).toNat = c.toNat - 32 :=
      toNat_ofNat_valid _ (by omega)
    simp only [wsB, h2]
    have e1 : ∀ n, 65 ≤ n → n ≤ 122 →
        ((n = 0x09 || n = 0x0A || n = 0x0B || n = 0x0C || n = 0x0D || n = 0x20 ||
        n = 0xA0 || n = 0x1680 || (0x2000 ≤ n && n ≤ 0x200A) || n = 0x2028 ||
        n = 0x2029 || n = 0x202F || n = 0x205F || n = 0x3000 || n = 0xFEFF) = false) := by
      intro n h1 h2
      simp
      omega
    rw [e1 _ (by omega) (by omega), e1 _ (by omega) (by omega)]
  · rw [if_neg hl]

/-! ### `dropWhile` facts -/

theorem dropWhile_cons_false {p : Char → Bool} {c : Char} {l : List Char}
    (h : p c = false) : List.dropWhile p (c :: l) = c :: l := by
  simp [List.dropWhile_cons, h]

theorem dropWhile_fix_head {p : Char → Bool} {c : Char} {t : List Char}
    (h : List.dropWhile p (c :: t) = c :: t) : p c = false := by
  by_cases hp : p c
  · exfalso
    rw [List.dropWhile_cons, if_pos hp] at h
    have := (List.dropWhile_sublist (l := t) p).length_le
    rw [h] at this
    simp at this
  · simpa using hp

theorem dropWhile_all_append {p : Char → Bool} {a : List Char} (b : List Char)
    (h : ∀ c ∈ a, p c = true) : (a ++ b).dropWhile p = b.dropWhile p := by
  induction a with
  | nil => rfl
  | cons c t ih =>
    rw [List.cons_append, List.dropWhile_cons, if_pos (h c (by simp))]
    exact ih (fun x hx => h x (by simp [hx]))

theorem dropWhile_stop_append {p : Char → Bool} {l : List Char} (w : List Char)
    (h : l.dropWhile p ≠ []) : (l ++ w).dropWhile p = l.dropWhile p ++ w := by
  induction l with
  | nil => simp [List.dropWhile] at h
  | cons c t ih =>
    by_cases hp : p c
    · rw [List.dropWhile_cons, if_pos hp] at h
      rw [List.cons_append, List.dropWhile_cons, if_pos hp,
        List.dropWhile_cons, if_pos hp]
      exact ih h
    · rw [List.cons_append, List.dropWhile_cons, if_neg hp,
        List.dropWhile_cons, if_neg hp, List.cons_append]

theorem head?_dropWhile {p : Char → Bool} {l : List Char} {c : Char}
    (h : (l.dropWhile p).head? = some c) : p c = false := by
  induction l with
  | nil => simp [List.dropWhile] at h
  | cons d t ih =>
    rw [List.dropWhile_cons] at h
    by_cases hp : p d
    · rw [if_pos hp] at h
      exact ih h
    · rw [if_neg hp] at h
      simp at h
      subst h
      simpa using hp

theorem dropWhile_idem {p : Char → Bool} (l : List Char) :
    (l.dropWhile p).dropWhile p = l.dropWhile p := by
  induction l with
  | nil => rfl
  | cons c t ih =>
    rw [List.dropWhile_cons]
    by_cases hp : p c
    · rw [if_pos hp]
      exact ih
    · rw [if_neg hp]
      exact dropWhile_cons_false (by simpa using hp)

/-! ### `dropTrail` facts -/

theorem dropTrail_cons (c : Char) (t : List Char) :
    dropTrail (c :: t) =
      if (dropTrail t).isEmpty then (if wsB c then [] else [c])
      else c :: dropTrail t := rfl

theorem dropTrail_all_ws {w : List Char} (h : ∀ c ∈ w, wsB c = true) :
    dropTrail w = [] := by
  induction w with
  | nil => rfl
  | cons c t ih =>
    rw [dropTrail_cons, ih (fun x hx => h x (by simp [hx]))]
    simp [h c (by simp)]

theorem dropTrail_append_ws {w : List Char} (l : List Char)
    (h : ∀ c ∈ w, wsB c = true) : dropTrail (l ++ w) = dropTrail l := by
  induction l with
  | nil => simpa using dropTrail_all_ws h
  | cons c t ih =>
    rw [List.cons_append, dropTrail_cons, dropTrail_cons, ih]

theorem dropTrail_decomp (l : List Char) :
    ∃ w, l = dropTrail l ++ w ∧ ∀ c ∈ w, wsB c = true := by
  induction l with
  | nil => exact ⟨[], rfl, by simp⟩
  | cons c t ih =>
    obtain ⟨w, hw, hws⟩ := ih
    rw [dropTrail_cons]
    by_cases he : (dropTrail t).isEmpty
    · rw [if_pos he]
      rw [List.isEmpty_iff] at he
      rw [he] at hw
      simp only [List.nil_append] at hw
      by_cases hc : wsB c
      · rw [if_pos hc]
        refine ⟨c :: w, by simp [hw], ?_⟩
        intro x hx
        rcases List.mem_cons.mp hx with h1 | h2
        · rwa [h1]
        · exact hws x h2
      · rw [if_neg hc]
        exact ⟨w, by simp [hw], hws⟩
    · rw [if_neg he]
      exact ⟨w, by rw [List.cons_append, ← hw], hws⟩

theorem dropTrail_head (l : List Char) :
    dropTrail l = [] ∨ (dropTrail l).head? = l.head? := by
  cases l with
  | nil => exact Or.inl rfl
  | cons c t =>
    rw [dropTrail_cons]
    by_cases he : (dropTrail t).isEmpty
    · rw [if_pos he]
      by_cases hc : wsB c
      · rw [if_pos hc]
        exact Or.inl rfl
      · rw [if_neg hc]
        exact Or.inr rfl
    · rw [if_neg he]
      exact Or.inr rfl

theorem dropTrail_last_not_ws {l : List Char} {x : Char}
    (h : (dropTrail l).getLast? = some x) : wsB x = false := by
  induction l with
  | nil => simp [dropTrail] at h
  | cons c t ih =>
    rw [dropTrail_cons] at h
    by_cases he : (dropTrail t).isEmpty
    · rw [if_pos he] at h
      by_cases hc : wsB c
      · rw [if_pos hc] at h
        simp at h
      · rw [if_neg hc] at h
        simp at h
        subst h
        simpa using hc
    · rw [if_neg he] at h
      rw [List.isEmpty_iff] at he
      rcases List.exists_cons_of_ne_nil he with ⟨d, r, hd⟩
      rw [hd, List.getLast?_cons_cons, ← hd] at h
      exact ih h

theorem dropTrail_eq_self {l : List Char}
    (h : ∀ x, l.getLast? = some x → wsB x = false) : dropTrail l = l := by
  induction l with
  | nil => rfl
  | cons c t ih =>
    rw [dropTrail_cons]
    cases t with
    | nil =>
      simp [dropTrail, h c (by simp)]
    | cons d r =>
      have ht : dropTrail (d :: r) = d :: r := by
        apply ih
        intro x hx
        apply h
        rwa [List.getLast?_cons_cons]
      rw [ht]
      simp

theorem dropTrail_idem (l : List Char) : dropTrail (dropTrail l) = dropTrail l :=
  dropTrail_eq_self (fun _ hx => dropTrail_last_not_ws hx)

/-! ### `jsTrim` facts -/

theorem jsTrim_cons_ws {c : Char} {l : List Char} (h : wsB c = true) :
    jsTrim (c :: l) = jsTrim l := by
  rw [jsTrim, jsTrim, List.dropWhile_cons, if_pos h]

theorem jsTrim_head_not_ws {l : List Char} {c : Char}
    (h : (jsTrim l).head? = some c) : wsB c = false := by
  rw [jsTrim] at h
  rcases dropTrail_head (l.dropWhile wsB) with h1 | h1
  · rw [h1] at h
    simp at h
  · rw [h1] at h
    exact head?_dropWhile h

theorem jsTrim_last_not_ws {l : List Char} {x : Char}
    (h : (jsTrim l).getLast? = some x) : wsB x = false :=
  dropTrail_last_not_ws h

theorem jsTrim_eq_self {l : List Char}
    (h1 : ∀ c, l.head? = some c → wsB c = false)
    (h2 : ∀ x, l.getLast? = some x → wsB x = false) : jsTrim l = l := by
  rw [jsTrim]
  have hd : l.dropWhile wsB = l := by
    cases l with
    | nil => rfl
    | cons c t => exact dropWhile_cons_false (h1 c rfl)
  rw [hd]
  exact dropTrail_eq_self h2

theorem jsTrim_idem (l : List Char) : jsTrim (jsTrim l) = jsTrim l :=
  jsTrim_eq_self (fun _ h => jsTrim_head_not_ws h)
    (fun _ h => jsTrim_last_not_ws h)

theorem jsTrim_append_ws {w : List Char} (l : List Char)
    (h : ∀ c ∈ w, wsB c = true) : jsTrim (l ++ w) = jsTrim l := by
  by_cases hl : l.dropWhile wsB = []
  · have hall : ∀ c ∈ l, wsB c = true := List.dropWhile_eq_nil_iff.mp hl
    have : (l ++ w).dropWhile wsB = [] := by
      apply List.dropWhile_eq_nil_iff.mpr
      intro c hc
      rcases List.mem_append.mp hc with h1 | h1
      · exact hall c h1
      · exact h c h1
    rw [jsTrim, jsTrim, this, hl]
  · rw [jsTrim, jsTrim, dropWhile_stop_append w hl]
    exact dropTrail_append_ws _ h

/-! ### `takeWhile` facts -/

theorem takeWhile_all_append {p : Char → Bool} {a : List Char} (b : List Char)
    (h : ∀ c ∈ a, p c = true) : (a ++ b).takeWhile p = a ++ b.takeWhile p := by
  induction a with
  | nil => rfl
  | cons c t ih =>
    rw [List.cons_append, List.takeWhile_cons, if_pos (h c (by simp)),
      ih (fun x hx => h x (by simp [hx])), List.cons_append]

theorem takeWhile_append_cases (p : Char → Bool) (a b : List Char) :
    (a ++ b).takeWhile p = a.takeWhile p ∨
      (a.takeWhile p = a ∧ (a ++ b).takeWhile p = a ++ b.takeWhile p) := by
  induction a with
  | nil => exact Or.inr ⟨rfl, rfl⟩
  | cons c t ih =>
    by_cases hp : p c
    · rw [List.cons_append, List.takeWhile_cons, if_pos hp,
        List.takeWhile_cons, if_pos hp]
      rcases ih with h1 | ⟨h1, h2⟩
      · exact Or.inl (by rw [h1])
      · exact Or.inr ⟨by rw [h1], by rw [h2, List.cons_append]⟩
    · rw [List.cons_append, List.takeWhile_cons, if_neg hp,
        List.takeWhile_cons, if_neg hp]
      exact Or.inl rfl

theorem jsTrim_takeWhile {p : Char → Bool} (l : List Char)
    (hp : ∀ c, wsB c = true → p c = true) :
    jsTrim (l.takeWhile p) = jsTrim ((jsTrim l).takeWhile p) := by
  have step1 : jsTrim (l.takeWhile p) = jsTrim ((l.dropWhile wsB).takeWhile p) := by
    induction l with
    | nil => rfl
    | cons c t ih =>
      by_cases hw : wsB c
      · rw [List.takeWhile_cons, if_pos (hp c hw), jsTrim_cons_ws hw,
          List.dropWhile_cons, if_pos hw]
        exact ih
      · rw [List.dropWhile_cons, if_neg hw]
  rw [step1]
  obtain ⟨w, hw, hws⟩ := dropTrail_decomp (l.dropWhile wsB)
  show jsTrim (List.takeWhile p (l.dropWhile wsB)) =
    jsTrim (List.takeWhile p (dropTrail (l.dropWhile wsB)))
  conv_lhs => rw [hw]
  rcases takeWhile_append_cases p (dropTrail (l.dropWhile wsB)) w with h1 | ⟨h1, h2⟩
  · rw [h1]
  · rw [h2, h1]
    apply jsTrim_append_ws
    intro c hc
    exact hws c ((List.takeWhile_sublist p).subset hc)

/-! ### Commuting ASCII upper-casing with trimming and token extraction -/

theorem wsTU : (fun c => wsB (Char.toUpper c)) = wsB :=
  funext wsB_toUpper

theorem dropTrail_upper (l : List Char) :
    dropTrail (upperL l) = upperL (dropTrail l) := by
  induction l with
  | nil => rfl
  | cons c t ih =>
    show dropTrail (c.toUpper :: upperL t) = upperL (dropTrail (c :: t))
    rw [dropTrail_cons, dropTrail_cons, ih]
    have he : (upperL (dropTrail t)).isEmpty = (dropTrail t).isEmpty := by
      cases h : dropTrail t with
      | nil => rfl
      | cons d r => rfl
    rw [he]
    by_cases h1 : (dropTrail t).isEmpty
    · rw [if_pos h1, if_pos h1, wsB_toUpper]
      by_cases h2 : wsB c
      · rw [if_pos h2, if_pos h2]
        rfl
      · rw [if_neg h2, if_neg h2]
        rfl
    · rw [if_neg h1, if_neg h1]
      rfl

theorem upperL_jsTrim (l : List Char) : upperL (jsTrim l) = jsTrim (upperL l) := by
  rw [jsTrim, jsTrim]
  have h1 : (upperL l).dropWhile wsB = upperL (l.dropWhile wsB) := by
    rw [upperL, List.dropWhile_map]
    have : (wsB ∘ Char.toUpper) = wsB := wsTU
    rw [this]
    rfl
  rw [h1, dropTrail_upper]

theorem upperL_takeWhile_dot (l : List Char) :
    (upperL l).takeWhile (fun c => c ≠ '.') =
      upperL (l.takeWhile (fun c => c ≠ '.')) := by
  rw [upperL, List.takeWhile_map]
  have : ((fun c => decide (c ≠ '.')) ∘ Char.toUpper) =
      (fun c => decide (c ≠ '.')) := by
    funext c
    show decide (c.toUpper ≠ '.') = decide (c ≠ '.')
    exact decide_eq_decide.mpr (not_congr (toUpper_eq_dot c))
  rw [this]
  rfl

theorem ws_ne_dot (c : Char) (h : wsB c = true) : (decide (c ≠ '.')) = true := by
  apply decide_eq_true
  intro he
  subst he
  exact absurd h (by decide)

/-- C8 (counterexample): the claim's token contract fails on the code.  For
`question.answer = "C . Ampere"` and user answer `"C"`, the claim's reading
(token before the first `'.'`, then trimmed and upper-cased, hence `"C"`)
matches, but `userAnswerMatchesMCQ` compares against `"C "` — the code trims
the whole answer before splitting and never trims the extracted token — and
returns `false`. -/
theorem mcq_match_counterexample :
    matchesMCQspec "C . Ampere" "C" = true ∧
      userAnswerMatchesMCQ "C . Ampere" "C" = false := by
  constructor
  · decide
  · decide

/-- C8 (amended): `userAnswerMatchesMCQ` returns true exactly when the user
answer, trimmed and upper-cased, equals the text before the first `'.'` of
the *trimmed, upper-cased* `question.answer`, with no further trimming of
that token.  Every match of the code is also a match under the claim's
token reading (the converse fails, see the counterexample), and the claim's
two concrete examples hold as stated. -/
theorem mcq_match_amended :
    (∀ a u : String, userAnswerMatchesMCQ a u = true ↔
      upperL (jsTrim u.data) =
        List.takeWhile (fun c => c ≠ '.') (upperL (jsTrim a.data))) ∧
    (∀ a u : String, userAnswerMatchesMCQ a u = true →
      matchesMCQspec a u = true) ∧
    userAnswerMatchesMCQ "C. Ampere" "c" = true ∧
    userAnswerMatchesMCQ "C. Ampere" "Ampere" = false := by
  refine ⟨fun a u => by rw [userAnswerMatchesMCQ, decide_eq_true_eq], ?_, by decide, by decide⟩
  intro a u h
  rw [userAnswerMatchesMCQ, decide_eq_true_eq] at h
  rw [matchesMCQspec, decide_eq_true_eq]
  calc upperL (jsTrim u.data)
      = jsTrim (upperL (jsTrim u.data)) := by
        rw [← upperL_jsTrim, jsTrim_idem]
    _ = jsTrim (List.takeWhile (fun c => c ≠ '.') (upperL (jsTrim a.data))) := by
        rw [h]
    _ = jsTrim (upperL (List.takeWhile (fun c => c ≠ '.') (jsTrim a.data))) := by
        rw [upperL_takeWhile_dot]
    _ = upperL (jsTrim (List.takeWhile (fun c => c ≠ '.') (jsTrim a.data))) := by
        rw [upperL_jsTrim]
    _ = upperL (jsTrim (List.takeWhile (fun c => c ≠ '.') a.data)) := by
        rw [← jsTrim_takeWhile a.data (fun c hc => ws_ne_dot c hc)]

/-- C8 (witness): the amended theorem applied at `("C. Ampere", "c")`. -/
theorem mcq_match_witness : matchesMCQspec "C. Ampere" "c" = true :=
  mcq_match_amended.2.1 "C. Ampere" "c" (by decide)

/-! ### Fixed points of `jsTrim` -/

theorem jsTrim_fix_dropWhile {body : List Char} (hb : jsTrim body = body) :
    body.dropWhile wsB = body := by
  obtain ⟨w, hw, _⟩ := dropTrail_decomp (body.dropWhile wsB)
  rw [jsTrim] at hb
  rw [hb] at hw
  have hlen : (body.dropWhile wsB).length ≤ body.length :=
    (List.dropWhile_sublist _).length_le
  rw [hw, List.length_append] at hlen
  have hw0 : w = [] := List.length_eq_zero.mp (by omega)
  rw [hw0, List.append_nil] at hw
  exact hw

theorem jsTrim_fix_dropTrail {body : List Char} (hb : jsTrim body = body) :
    dropTrail body = body := by
  have h := hb
  rw [jsTrim, jsTrim_fix_dropWhile hb] at h
  exact h

theorem jsTrim_fix_getLast {body : List Char} (hb : jsTrim body = body) :
    ∀ x, body.getLast? = some x → wsB x = false := by
  intro x hx
  apply dropTrail_last_not_ws (l := body)
  rw [jsTrim_fix_dropTrail hb]
  exact hx

theorem jsTrim_fix_head {body : List Char} (hb : jsTrim body = body) :
    ∀ c, body.head? = some c → wsB c = false := by
  intro c hc
  cases body with
  | nil => simp at hc
  | cons d t =>
    simp at hc
    subst hc
    exact dropWhile_fix_head (jsTrim_fix_dropWhile hb)

/-- C6 (counterexample): the sanitizer does not strip a leading fence whose
language tag is anything other than `json`.  On `"```python\n{x}\n```"`
(braces written escaped) only the backticks are removed and the tag text
remains, so the result is `"python\n{x}"`, not the fenced body `"{x}"`. -/
theorem fence_strip_counterexample :
    stripFences "```python\n\x7bx\x7d\n```" ≠ "\x7bx\x7d" ∧
      stripFences "```python\n\x7bx\x7d\n```" = "python\n\x7bx\x7d" := by
  constructor
  · decide
  · decide

/-- C6 (amended): the sanitizer trims surrounding whitespace and strips a
leading ` ```json ` fence or a bare leading ` ``` ` fence, and one trailing
` ``` ` fence, exactly once per side; a leading fence with any other
language tag loses only its backticks, the tag text remains.  For every
already-trimmed body both fenced forms reduce to the body itself, and the
claim's concrete example holds. -/
theorem fence_strip_amended :
    (∀ body : List Char, jsTrim body = body →
      stripFencesL (("```json\n".data ++ body) ++ "\n```".data) = body ∧
      stripFencesL (("```\n".data ++ body) ++ "\n```".data) = body) ∧
    stripFences "```json\n\x7b...\x7d\n```" = "\x7b...\x7d" ∧
    stripFences "```\nhello\n```" = "hello" ∧
    stripFences "```python\nhello\n```" = "python\nhello" := by
  refine ⟨?_, by decide, by decide, by decide⟩
  intro body hb
  cases body with
  | nil => exact ⟨by decide, by decide⟩
  | cons c b =>
    have hc : wsB c = false := dropWhile_fix_head (jsTrim_fix_dropWhile hb)
    have hmid : jsTrim ((c :: b) ++ "\n```".data) = (c :: b) ++ "\n```".data := by
      apply jsTrim_eq_self
      · intro x hx
        have h1 : c = x := by simpa using hx
        rw [← h1]
        exact hc
      · intro x hx
        rw [List.getLast?_append] at hx
        have h1 : '`' = x := by simpa using hx
        rw [← h1]
        decide
    have htail : stripTrailFence ((c :: b) ++ "\n```".data) = c :: b := by
      rw [stripTrailFence]
      have hrev : ((c :: b) ++ "\n```".data).reverse =
          '`' :: '`' :: '`' :: '\n' :: (c :: b).reverse := by
        rw [List.reverse_append]
        rfl
      have hcond : List.take 3 ('`' :: '`' :: '`' :: '\n' :: (c :: b).reverse) =
          "```".data := rfl
      rw [hrev, if_pos hcond]
      show jsTrim (('\n' :: (c :: b).reverse).reverse) = c :: b
      rw [List.reverse_cons, List.reverse_reverse]
      rw [jsTrim_append_ws (c :: b) (by intro x hx; simp at hx; subst hx; decide)]
      exact hb
    constructor
    · have hI : jsTrim (("```json\n".data ++ (c :: b)) ++ "\n```".data) =
          ("```json\n".data ++ (c :: b)) ++ "\n```".data := by
        apply jsTrim_eq_self
        · intro x hx
          have h1 : '`' = x := by simpa using hx
          rw [← h1]
          decide
        · intro x hx
          rw [List.getLast?_append] at hx
          have h1 : '`' = x := by simpa using hx
          rw [← h1]
          decide
      have h7 : List.take 7 (("```json\n".data ++ (c :: b)) ++ "\n```".data) =
          "```json".data := rfl
      rw [stripFencesL, hI, stripLead, if_pos h7]
      show stripTrailFence (jsTrim ('\n' :: ((c :: b) ++ "\n```".data))) = c :: b
      rw [jsTrim_cons_ws (by decide), hmid]
      exact htail
    · have hI : jsTrim (("```\n".data ++ (c :: b)) ++ "\n```".data) =
          ("```\n".data ++ (c :: b)) ++ "\n```".data := by
        apply jsTrim_eq_self
        · intro x hx
          have h1 : '`' = x := by simpa using hx
          rw [← h1]
          decide
        · intro x hx
          rw [List.getLast?_append] at hx
          have h1 : '`' = x := by simpa using hx
          rw [← h1]
          decide
      rw [stripFencesL, hI, stripLead]
      have hne : ((("```\n".data ++ (c :: b)) ++ "\n```".data).take 7) ≠
          "```json".data := by
        intro h
        have h4 : (some '\n' : Option Char) = some 'j' :=
          congrArg (fun l => l.get? 3) h
        exact absurd h4 (by decide)
      have h3 : List.take 3 (("```\n".data ++ (c :: b)) ++ "\n```".data) =
          "```".data := rfl
      rw [if_neg hne, if_pos h3]
      show stripTrailFence (jsTrim ('\n' :: ((c :: b) ++ "\n```".data))) = c :: b
      rw [jsTrim_cons_ws (by decide), hmid]
      exact htail

/-- C6 (witness): the amended theorem applied at the body `"{...}"` (braces
escaped), for both fence forms. -/
theorem fence_strip_witness :
    stripFencesL (("```json\n".data ++ "\x7b...\x7d".data) ++ "\n```".data) =
        "\x7b...\x7d".data ∧
      stripFencesL (("```\n".data ++ "\x7b...\x7d".data) ++ "\n```".data) =
        "\x7b...\x7d".data :=
  fence_strip_amended.1 "\x7b...\x7d".data (by decide)

/-! ### Normal forms for `cleanText` -/

/-- No two adjacent spaces. -/
def noDouble : List Char → Bool
  | [] => true
  | [_] => true
  | a :: b :: t => (!(a = ' ' && b = ' ')) && noDouble (b :: t)

theorem noDouble_tail {a : Char} {l : List Char}
    (h : noDouble (a :: l) = true) : noDouble l = true := by
  cases l with
  | nil => rfl
  | cons b t =>
    rw [noDouble] at h
    exact (Bool.and_eq_true_iff.mp h).2

theorem noDouble_pair {a b : Char} {t : List Char}
    (h : noDouble (a :: b :: t) = true) : (a = ' ' ∧ b = ' ') → False := by
  intro ⟨h1, h2⟩
  rw [noDouble, h1, h2] at h
  simp at h

theorem noDouble_cons_of {a : Char} {l : List Char}
    (hl : noDouble l = true)
    (hp : ∀ b, l.head? = some b → a = ' ' → b = ' ' → False) :
    noDouble (a :: l) = true := by
  cases l with
  | nil => rfl
  | cons b t =>
    rw [noDouble]
    have : (a = ' ' && b = ' ') = false := by
      by_cases h1 : a = ' '
      · by_cases h2 : b = ' '
        · exact absurd (hp b rfl h1 h2) (by simp)
        · simp [h2]
      · simp [h1]
    rw [this, hl]
    rfl

theorem mem_dropTrail {c : Char} {l : List Char} (h : c ∈ dropTrail l) :
    c ∈ l := by
  obtain ⟨w, hw, _⟩ := dropTrail_decomp l
  rw [hw]
  exact List.mem_append_left w h

theorem mem_jsTrim {c : Char} {l : List Char} (h : c ∈ jsTrim l) : c ∈ l :=
  (List.dropWhile_sublist wsB).subset (mem_dropTrail h)

theorem map_id_of_mem {f : Char → Char} {l : List Char}
    (h : ∀ c ∈ l, f c = c) : l.map f = l := by
  induction l with
  | nil => rfl
  | cons c t ih =>
    rw [List.map_cons, h c (by simp), ih (fun x hx => h x (by simp [hx]))]

theorem noDouble_dropWhile {p : Char → Bool} {l : List Char}
    (h : noDouble l = true) : noDouble (l.dropWhile p) = true := by
  induction l with
  | nil => exact h
  | cons c t ih =>
    rw [List.dropWhile_cons]
    by_cases hp : p c
    · rw [if_pos hp]
      exact ih (noDouble_tail h)
    · rw [if_neg hp]
      exact h

theorem noDouble_dropTrail {l : List Char} (h : noDouble l = true) :
    noDouble (dropTrail l) = true := by
  induction l with
  | nil => exact h
  | cons c t ih =>
    rw [dropTrail_cons]
    by_cases he : (dropTrail t).isEmpty
    · rw [if_pos he]
      by_cases hc : wsB c
      · rw [if_pos hc]
        rfl
      · rw [if_neg hc]
        rfl
    · rw [if_neg he]
      apply noDouble_cons_of (ih (noDouble_tail h))
      intro b hb h1 h2
      rw [List.isEmpty_iff] at he
      rcases dropTrail_head t with hh | hh
      · exact he hh
      · rw [hh] at hb
        cases t with
        | nil => simp [dropTrail] at he
        | cons d r =>
          simp at hb
          subst hb
          exact noDouble_pair h ⟨h1, h2⟩

theorem noDouble_jsTrim {l : List Char} (h : noDouble l = true) :
    noDouble (jsTrim l) = true :=
  noDouble_dropTrail (noDouble_dropWhile h)

theorem collapse_cons (s : Bool) (d : Char) (t : List Char) :
    collapse s (d :: t) =
      if wsB d then (if s then collapse true t else ' ' :: collapse true t)
      else d :: collapse false t := rfl

theorem mem_collapse {c : Char} {m : List Char} :
    ∀ {s : Bool}, c ∈ collapse s m → c = ' ' ∨ (c ∈ m ∧ wsB c = false) := by
  induction m with
  | nil => intro s h; simp [collapse] at h
  | cons d t ih =>
    intro s h
    rw [collapse_cons] at h
    by_cases hw : wsB d
    · rw [if_pos hw] at h
      cases s with
      | true =>
        rw [if_pos rfl] at h
        rcases ih h with h1 | ⟨h1, h2⟩
        · exact Or.inl h1
        · exact Or.inr ⟨by simp [h1], h2⟩
      | false =>
        rw [if_neg (by simp)] at h
        rcases List.mem_cons.mp h with h1 | h1
        · exact Or.inl h1
        · rcases ih h1 with h2 | ⟨h2, h3⟩
          · exact Or.inl h2
          · exact Or.inr ⟨by simp [h2], h3⟩
    · rw [if_neg hw] at h
      rcases List.mem_cons.mp h with h1 | h1
      · subst h1
        exact Or.inr ⟨by simp, by simpa using hw⟩
      · rcases ih h1 with h2 | ⟨h2, h3⟩
        · exact Or.inl h2
        · exact Or.inr ⟨by simp [h2], h3⟩

theorem collapse_props (m : List Char) :
    ∀ s, noDouble (collapse s m) = true ∧
      (s = true → ∀ x, (collapse s m).head? = some x → wsB x = false) := by
  induction m with
  | nil => intro s; exact ⟨rfl, fun _ x hx => by simp [collapse] at hx⟩
  | cons d t ih =>
    intro s
    rw [collapse_cons]
    by_cases hw : wsB d
    · rw [if_pos hw]
      cases s with
      | true =>
        rw [if_pos rfl]
        exact ⟨(ih true).1, fun _ => (ih true).2 rfl⟩
      | false =>
        rw [if_neg (by simp)]
        constructor
        · apply noDouble_cons_of (ih true).1
          intro b hb _ h2
          have := (ih true).2 rfl b hb
          rw [h2] at this
          exact absurd this (by decide)
        · intro h
          simp at h
    · rw [if_neg hw]
      constructor
      · apply noDouble_cons_of (ih false).1
        intro b _ h1 _
        rw [h1] at hw
        exact absurd hw (by decide)
      · intro _ x hx
        simp at hx
        rw [← hx]
        simpa using hw

theorem collapse_eq_self {m : List Char}
    (hN1 : ∀ c ∈ m, wsB c = true → c = ' ') (hnd : noDouble m = true) :
    collapse false m = m ∧
      ((∀ b, m.head? = some b → b ≠ ' ') → collapse true m = m) := by
  induction m with
  | nil => exact ⟨rfl, fun _ => rfl⟩
  | cons d t ih =>
    have hN1t : ∀ c ∈ t, wsB c = true → c = ' ' :=
      fun c hc => hN1 c (by simp [hc])
    have ihh := ih hN1t (noDouble_tail hnd)
    rw [collapse_cons]
    by_cases hw : wsB d
    · have hd : d = ' ' := hN1 d (by simp) hw
      have hth : ∀ b, t.head? = some b → b ≠ ' ' := by
        intro b hb he
        cases t with
        | nil => simp at hb
        | cons e r =>
          simp at hb
          subst hb
          subst hd
          exact noDouble_pair hnd ⟨rfl, he⟩
      constructor
      · rw [if_pos hw, if_neg (by simp), ihh.2 hth, hd]
      · intro hhb
        exact absurd hd (hhb d rfl)
    · constructor
      · rw [if_neg hw, ihh.1]
      · intro _
        rw [collapse_cons, if_neg hw, ihh.1]

theorem cleanTextL_idem {l : List Char}
    (H : ∀ c ∈ l, ctlB c = true → c = '\n' ∨ c = '\r') :
    cleanTextL (cleanTextL l) = cleanTextL l := by
  have hm2 : ∀ c ∈ sepToSpace (nlToSpace l),
      (c ≠ '\n') ∧ (c ≠ '\r') ∧ sepB c = false ∧ ctlB c = false := by
    intro c hc
    rw [sepToSpace] at hc
    rcases List.mem_map.mp hc with ⟨y, hy, hcy⟩
    rw [nlToSpace] at hy
    rcases List.mem_map.mp hy with ⟨x, hx, hyx⟩
    by_cases hnl : (x = '\n' || x = '\r') = true
    · rw [if_pos hnl] at hyx
      rw [← hyx] at hcy
      rw [if_neg (by decide)] at hcy
      rw [← hcy]
      refine ⟨by decide, by decide, by decide, by decide⟩
    · rw [if_neg hnl] at hyx
      rw [← hyx] at hcy
      by_cases hsep : sepB x = true
      · rw [if_pos hsep] at hcy
        rw [← hcy]
        refine ⟨by decide, by decide, by decide, by decide⟩
      · rw [if_neg hsep] at hcy
        rw [← hcy]
        simp at hnl
        refine ⟨hnl.1, hnl.2, by simpa using hsep, ?_⟩
        by_cases hct : ctlB x = true
        · rcases H x hx hct with h1 | h1
          · exact absurd h1 hnl.1
          · exact absurd h1 hnl.2
        · simpa using hct
  have hXmem : ∀ c ∈ jsTrim (collapse false (sepToSpace (nlToSpace l))),
      c = ' ' ∨ (c ∈ sepToSpace (nlToSpace l) ∧ wsB c = false) :=
    fun c hc => mem_collapse (mem_jsTrim hc)
  have hXctl : ∀ c ∈ jsTrim (collapse false (sepToSpace (nlToSpace l))),
      ctlB c = false := by
    intro c hc
    rcases hXmem c hc with h1 | ⟨h1, _⟩
    · rw [h1]
      decide
    · exact (hm2 c h1).2.2.2
  have hX1 : cleanTextL l = jsTrim (collapse false (sepToSpace (nlToSpace l))) := by
    rw [cleanTextL, removeCtl]
    apply List.filter_eq_self.mpr
    intro a ha
    rw [hXctl a ha]
    rfl
  rw [hX1]
  have hXn1 : ∀ c ∈ jsTrim (collapse false (sepToSpace (nlToSpace l))),
      wsB c = true → c = ' ' := by
    intro c hc hw
    rcases hXmem c hc with h1 | ⟨_, h2⟩
    · exact h1
    · rw [hw] at h2
      exact absurd h2 (by simp)
  have hnl : nlToSpace (jsTrim (collapse false (sepToSpace (nlToSpace l)))) =
      jsTrim (collapse false (sepToSpace (nlToSpace l))) := by
    apply map_id_of_mem
    intro c hc
    have hne : (c = '\n' || c = '\r') = false := by
      rcases hXmem c hc with h1 | ⟨h1, _⟩
      · rw [h1]
        decide
      · simp [(hm2 c h1).1, (hm2 c h1).2.1]
    rw [if_neg (by simp [hne])]
  have hsep : sepToSpace (jsTrim (collapse false (sepToSpace (nlToSpace l)))) =
      jsTrim (collapse false (sepToSpace (nlToSpace l))) := by
    apply map_id_of_mem
    intro c hc
    have hne : sepB c = false := by
      rcases hXmem c hc with h1 | ⟨h1, _⟩
      · rw [h1]
        decide
      · exact (hm2 c h1).2.2.1
    rw [if_neg (by simp [hne])]
  have hcol : collapse false (jsTrim (collapse false (sepToSpace (nlToSpace l)))) =
      jsTrim (collapse false (sepToSpace (nlToSpace l))) :=
    (collapse_eq_self hXn1
      (noDouble_jsTrim (collapse_props (sepToSpace (nlToSpace l)) false).1)).1
  have htr : jsTrim (jsTrim (collapse false (sepToSpace (nlToSpace l)))) =
      jsTrim (collapse false (sepToSpace (nlToSpace l))) :=
    jsTrim_idem _
  rw [cleanTextL, hnl, hsep, hcol, htr, removeCtl]
  apply List.filter_eq_self.mpr
  intro a ha
  rw [hXctl a ha]
  rfl

/-- C5 (counterexample): `cleanText` is not idempotent.  Control characters
are stripped only *after* whitespace runs are collapsed, so removing one can
merge two spaces: `cleanText "a \x01 b" = "a  b"` but
`cleanText "a  b" = "a b"`. -/
theorem clean_text_counterexample :
    cleanText (cleanText "a \x01 b") ≠ cleanText "a \x01 b" ∧
      cleanText "a \x01 b" = "a  b" ∧ cleanText "a  b" = "a b" :=
  ⟨by decide, by decide, by decide⟩

/-- C5 (amended): `cleanText` (the spec's `cleanFieldText`) is idempotent on
every string whose ASCII control characters are only newlines and carriage
returns — on other control characters idempotence can fail because they are
removed after whitespace collapsing (see the counterexample) — and the
claim's concrete example holds:
`cleanText "A B\nC\x01" = "A B C"`. -/
theorem clean_text_amended :
    (∀ s : String, (∀ c ∈ s.data, ctlB c = true → c = '\n' ∨ c = '\r') →
      cleanText (cleanText s) = cleanText s) ∧
    cleanText "A B\nC\x01" = "A B C" := by
  constructor
  · intro s hs
    show String.mk (cleanTextL (cleanTextL s.data)) = String.mk (cleanTextL s.data)
    rw [cleanTextL_idem hs]
  · decide

/-- C5 (witness): the amended idempotence applied to a concrete string
containing leading/trailing blanks, a newline and a no-break space. -/
theorem clean_text_witness :
    cleanText (cleanText " x \n  y ") = cleanText " x \n  y " :=
  clean_text_amended.1 " x \n  y " (by decide)

/-- C3: `evaluateDescriptiveAnswer` never propagates an exception.  A
provider-level failure is returned as the default error object with score 0
and `N/A` parts, and a reply that fails `JSON.parse` after fence-stripping is
returned as the default error object whose feedback quotes the first 100
characters of the raw response; in the embedding both paths are ordinary
return values of a total function, so the enclosing submission is never
aborted. -/
theorem descriptive_eval_never_throws :
    (∀ (parse : String → Option Json) (msg : String),
      evaluateDescriptiveAnswer parse (Except.error msg) =
        ⟨0, "Automated evaluation failed: " ++ msg, "N/A", "N/A"⟩) ∧
    (∀ (parse : String → Option Json) (raw : String),
      parse (stripFences raw) = none →
      evaluateDescriptiveAnswer parse (Except.ok raw) =
        ⟨0, "Automated evaluation failed: Could not parse AI response. Raw response starts with: \"" ++ raw.take 100 ++ "...\"",
          "N/A", "N/A"⟩) := by
  constructor
  · intro parse msg
    rfl
  · intro parse raw h
    show evalAnswerPost parse raw = _
    rw [evalAnswerPost, h]

/-- C3 (witness): both failure paths evaluated at concrete inputs. -/
theorem descriptive_eval_witness :
    evaluateDescriptiveAnswer (fun _ => none) (Except.error "boom") =
      ⟨0, "Automated evaluation failed: boom", "N/A", "N/A"⟩ ∧
    evaluateDescriptiveAnswer (fun _ => none) (Except.ok "oops") =
      ⟨0, "Automated evaluation failed: Could not parse AI response. Raw response starts with: \"oops...\"",
        "N/A", "N/A"⟩ := by
  constructor
  · exact descriptive_eval_never_throws.1 (fun _ => none) "boom"
  · rw [descriptive_eval_never_throws.2 (fun _ => none) "oops" rfl]
    decide

/-- C4 (counterexample): the claim that the returned score is always in
[0,10] after a successful parse fails on the code.  A reply `{"score": 15}`
with a missing `feedback` parses successfully, takes the best-effort repair
branch — which performs no clamping — and returns score 15, outside the
claimed range.  (The valid-reply branch clamps but never rounds either, so
the "integer" part of the claim also has no support in the code.) -/
theorem descriptive_score_counterexample :
    evaluateDescriptiveAnswer (fun _ => some (Json.obj [("score", Json.num 15)]))
        (Except.ok "x") =
      ⟨15, "Failed to parse full AI evaluation.", "N/A", "N/A"⟩ ∧
    ¬((evaluateDescriptiveAnswer (fun _ => some (Json.obj [("score", Json.num 15)]))
        (Except.ok "x")).score ≤ 10) := by
  refine ⟨rfl, by decide⟩

/-- C4 (amended): when all four fields of the parsed grading reply are
present with the expected types, the returned score is
`Math.max(0, Math.min(10, score))`, hence a rational in [0,10] (no rounding
to an integer); when validation fails, the best-effort repair passes a
present numeric score through unclamped and defaults a missing or
non-numeric score to 0. -/
theorem descriptive_score_amended :
    (∀ (parse : String → Option Json) (raw : String) (j : Json),
      parse (stripFences raw) = some j →
      evaluateDescriptiveAnswer parse (Except.ok raw) = validateRepair j) ∧
    (∀ j s fb cp im,
      getField j "score" = some (Json.num s) →
      getField j "feedback" = some (Json.str fb) →
      getField j "correct_parts" = some (Json.str cp) →
      getField j "improvements" = some (Json.str im) →
      validateRepair j = ⟨max 0 (min 10 s), fb, cp, im⟩ ∧
      0 ≤ (validateRepair j).score ∧ (validateRepair j).score ≤ 10) ∧
    (∀ j s,
      getField j "score" = some (Json.num s) →
      getField j "feedback" = none →
      (validateRepair j).score = s) := by
  refine ⟨?_, ?_, ?_⟩
  · intro parse raw j h
    show evalAnswerPost parse raw = _
    rw [evalAnswerPost, h]
  · intro j s fb cp im h1 h2 h3 h4
    have hrep : validateRepair j = ⟨max 0 (min 10 s), fb, cp, im⟩ := by
      rw [validateRepair, h1, h2, h3, h4]
    refine ⟨hrep, ?_, ?_⟩
    · rw [hrep]
      exact le_max_left 0 _
    · rw [hrep]
      exact max_le (by norm_num) (min_le_left 10 s)
  · intro j s h1 h2
    rw [validateRepair, h1, h2]
    simp

/-- C4 (witness): a fully valid reply with score 3 goes through the clamp and
lands in range. -/
theorem descriptive_score_witness :
    validateRepair (Json.obj [("score", Json.num 3), ("feedback", Json.str "f"),
        ("correct_parts", Json.str "c"), ("improvements", Json.str "i")]) =
      ⟨max 0 (min 10 3), "f", "c", "i"⟩ ∧
    (validateRepair (Json.obj [("score", Json.num 3), ("feedback", Json.str "f"),
        ("correct_parts", Json.str "c"), ("improvements", Json.str "i")])).score ≤ 10 :=
  ⟨(descriptive_score_amended.2.1 (Json.obj [("score", Json.num 3),
      ("feedback", Json.str "f"), ("correct_parts", Json.str "c"),
      ("improvements", Json.str "i")]) 3 "f" "c" "i" rfl rfl rfl rfl).1,
   (descriptive_score_amended.2.1 (Json.obj [("score", Json.num 3),
      ("feedback", Json.str "f"), ("correct_parts", Json.str "c"),
      ("improvements", Json.str "i")]) 3 "f" "c" "i" rfl rfl rfl rfl).2.2⟩

/-- C7: the generation parse/validate step fails exactly when the sanitized
text does not parse as JSON, or the parsed value has no `questions` array, or
that array is empty; on success the returned array is the provider's
questions, cleaned and id-assigned one for one (same length, same order), so
a question count differing from the requested one never causes failure — the
step never consults the requested count — and no questions are fabricated. -/
theorem generation_parse_step :
    ∀ (parse : String → Option Json) (jsString : Json → String)
      (fresh : ℕ → String) (raw : String),
      (parse (stripFences raw) = none →
        quizParseStep parse jsString fresh raw = Except.error (raw.take 100)) ∧
      (∀ j, parse (stripFences raw) = some j → questionsArr j = none →
        quizParseStep parse jsString fresh raw = Except.error (raw.take 100)) ∧
      (∀ j, parse (stripFences raw) = some j → questionsArr j = some [] →
        quizParseStep parse jsString fresh raw = Except.error (raw.take 100)) ∧
      (∀ j qs, parse (stripFences raw) = some j → questionsArr j = some qs →
        qs ≠ [] →
        quizParseStep parse jsString fresh raw =
          Except.ok ((qs.map cleanQ).mapIdx (fun i q => assignId jsString (fresh i) q)) ∧
        ((qs.map cleanQ).mapIdx (fun i q => assignId jsString (fresh i) q)).length =
          qs.length) := by
  intro parse jsString fresh raw
  refine ⟨?_, ?_, ?_, ?_⟩
  · intro h
    simp [quizParseStep, h]
  · intro j h1 h2
    simp [quizParseStep, h1, h2]
  · intro j h1 h2
    simp [quizParseStep, h1, h2]
  · intro j qs h1 h2 h3
    constructor
    · simp [quizParseStep, h1, h2, h3]
    · simp

/-- C7 (witness): a provider reply with two questions (one with its own id,
one without) parses successfully into exactly those two questions, cleaned
and id-assigned, independently of any requested count. -/
theorem generation_parse_witness :
    quizParseStep
      (fun _ => some (Json.obj [("questions",
        Json.arr [Json.obj [("question", Json.str "Q")],
          Json.obj [("question", Json.str "R"), ("id", Json.str "7")]])]))
      (fun j => match j with | Json.str s => s | _ => "")
      (fun i => "u" ++ toString i) "raw" =
      Except.ok [Json.obj [("question", Json.str "Q"), ("id", Json.str "u0")],
        Json.obj [("question", Json.str "R"), ("id", Json.str "7")]] := by
  have h := (generation_parse_step
    (fun _ => some (Json.obj [("questions",
      Json.arr [Json.obj [("question", Json.str "Q")],
        Json.obj [("question", Json.str "R"), ("id", Json.str "7")]])]))
    (fun j => match j with | Json.str s => s | _ => "")
    (fun i => "u" ++ toString i) "raw").2.2.2 _ _ rfl rfl (by simp)
  rw [h.1]
  rfl

/-! ### Association-list lookup facts for the redaction -/

theorem lookup_none_of_keys {l : List (String × Json)} {k : String}
    (h : ∀ kv ∈ l, kv.1 ≠ k) : l.lookup k = none := by
  induction l with
  | nil => rfl
  | cons kv t ih =>
    rw [List.lookup_cons]
    have hne : (k == kv.1) = false := by
      simp
      exact fun he => (h kv (by simp)) he.symm
    rw [hne]
    exact ih (fun x hx => h x (by simp [hx]))

theorem lookup_append_none {a b : List (String × Json)} {k : String}
    (h : a.lookup k = none) : (a ++ b).lookup k = b.lookup k := by
  induction a with
  | nil => rfl
  | cons kv t ih =>
    rw [List.lookup_cons] at h
    rcases hbe : (k == kv.1) with _ | _
    · rw [hbe] at h
      rw [List.cons_append, List.lookup_cons, hbe]
      exact ih h
    · rw [hbe] at h
      simp at h

/-- C2 (counterexample): the redacted question does not always carry an
*array* under `options`.  `options: options || []` keeps any truthy stored
value as it is, so a stored question whose `options` is the (truthy,
non-array) string `"A,B"` is returned with that string, not an array. -/
theorem redaction_counterexample :
    (redactQuestion [("question", Json.str "Q"), ("options", Json.str "A,B"),
        ("answer", Json.str "A")]).lookup "options" = some (Json.str "A,B") ∧
      isArr (Json.str "A,B") = false ∧
      (redactQuestion [("question", Json.str "Q"), ("options", Json.str "A,B"),
        ("answer", Json.str "A")]).lookup "answer" = none :=
  ⟨rfl, rfl, rfl⟩

/-- C2 (amended): the redacted question never carries an `answer` or an
`explanation` key, and always carries an `options` key holding the stored
options value when that value is truthy and the empty array otherwise; in
particular `options` is an array whenever the stored value is absent (as for
FillBlank/Descriptive questions), falsy, or itself an array (possibly
empty) — but a truthy non-array stored value is passed through unchanged
(see the counterexample). -/
theorem redaction_amended :
    ∀ q : List (String × Json),
      (redactQuestion q).lookup "answer" = none ∧
      (redactQuestion q).lookup "explanation" = none ∧
      (redactQuestion q).lookup "options" =
        some (match q.lookup "options" with
          | some v => if jsTruthy v then v else Json.arr []
          | none => Json.arr []) ∧
      (∀ l, q.lookup "options" = some (Json.arr l) →
        (redactQuestion q).lookup "options" = some (Json.arr l)) ∧
      (q.lookup "options" = none →
        (redactQuestion q).lookup "options" = some (Json.arr [])) ∧
      (∀ v, q.lookup "options" = some v → jsTruthy v = false →
        (redactQuestion q).lookup "options" = some (Json.arr [])) := by
  intro q
  have hfilter : ∀ k : String,
      (k = "answer" ∨ k = "explanation" ∨ k = "options") →
      (q.filter (fun kv =>
        !(kv.1 = "answer" || kv.1 = "explanation" || kv.1 = "options"))).lookup k =
        none := by
    intro k hk
    apply lookup_none_of_keys
    intro kv hkv
    have := (List.mem_filter.mp hkv).2
    intro he
    rw [he] at this
    rcases hk with h | h | h
    · simp [h] at this
    · simp [h] at this
    · simp [h] at this
  have hopts : (redactQuestion q).lookup "options" =
      some (match q.lookup "options" with
        | some v => if jsTruthy v then v else Json.arr []
        | none => Json.arr []) := by
    rw [redactQuestion, lookup_append_none (hfilter "options" (by simp))]
    rfl
  refine ⟨?_, ?_, hopts, ?_, ?_, ?_⟩
  · rw [redactQuestion, lookup_append_none (hfilter "answer" (by simp))]
    rfl
  · rw [redactQuestion, lookup_append_none (hfilter "explanation" (by simp))]
    rfl
  · intro l hl
    rw [hopts, hl]
    simp [jsTruthy]
  · intro hl
    rw [hopts, hl]
  · intro v hv htr
    rw [hopts, hv]
    simp [htr]

/-- C2 (witness): the amended theorem evaluated on a question without stored
options (the FillBlank/Descriptive shape) and on one with a stored options
array. -/
theorem redaction_witness :
    (redactQuestion [("question", Json.str "Q"), ("answer", Json.str "A"),
        ("explanation", Json.str "E")]).lookup "options" = some (Json.arr []) ∧
      (redactQuestion [("question", Json.str "Q"),
        ("options", Json.arr [Json.str "A. x"]), ("answer", Json.str "A")]).lookup
          "options" = some (Json.arr [Json.str "A. x"]) ∧
      (redactQuestion [("question", Json.str "Q"), ("answer", Json.str "A"),
        ("explanation", Json.str "E")]).lookup "answer" = none :=
  ⟨(redaction_amended [("question", Json.str "Q"), ("answer", Json.str "A"),
      ("explanation", Json.str "E")]).2.2.2.2.1 rfl,
   (redaction_amended [("question", Json.str "Q"),
      ("options", Json.arr [Json.str "A. x"]),
      ("answer", Json.str "A")]).2.2.2.1 [Json.str "A. x"] rfl,
   (redaction_amended [("question", Json.str "Q"), ("answer", Json.str "A"),
      ("explanation", Json.str "E")]).1⟩

/-- The claim's concrete submission scenario: two multiple-choice questions
and one descriptive question. -/
def exampleQuiz : List StoredQ :=
  [⟨"q1", "Q1", "MCQ", "A. Paris", "e1"⟩,
   ⟨"q2", "Q2", "MCQ", "B. Two", "e2"⟩,
   ⟨"q3", "Q3", "Descriptive", "model answer", "e3"⟩]

/-- Concrete request body: the first answer is correct, the second is not,
the third is free text. -/
def exampleAnswers : String → Option String := fun k =>
  if k = "answer_q1" then some "a"
  else if k = "answer_q2" then some "C"
  else if k = "answer_q3" then some "my essay"
  else none

/-- A grader stub that scores the descriptive answer 7/10. -/
def exampleDescEval : StoredQ → String → String → EvalData :=
  fun _ _ _ => ⟨7, "good", "x", "y"⟩

/-- C1: the persisted overall percentage is
`100 * totalScore / (10 * questionCount)`, and 0 when the quiz has no
questions; on the claim's scenario (MCQ scored 10, MCQ scored 0, Descriptive
scored 7) the total is 17, the percentage is 170/3 ≈ 56.67, and the response
field rounded by `toFixed(2)` is exactly 56.67. -/
theorem overall_percentage_formula :
    (∀ (descEval : StoredQ → String → String → EvalData) (pdfText : String)
      (answers : String → Option String) (qs : List StoredQ),
      overallPercentage descEval pdfText answers qs =
        if qs.length = 0 then 0
        else 100 * submitTotal (evalLoop descEval pdfText answers qs) /
          (10 * qs.length)) ∧
    submitTotal (evalLoop exampleDescEval "" exampleAnswers exampleQuiz) = 17 ∧
    overallPercentage exampleDescEval "" exampleAnswers exampleQuiz = 170/3 ∧
    jsToFixed2 (170/3) = 5667/100 := by
  have hsum : submitTotal (evalLoop exampleDescEval "" exampleAnswers exampleQuiz) = 17 := by
    show ((10 : ℚ) + ((0 : ℚ) + ((7 : ℚ) + 0))) = 17
    norm_num
  refine ⟨?_, hsum, ?_, ?_⟩
  · intro d p a qs
    show (if ((qs.length : ℚ) * 10 = 0) then (0 : ℚ)
        else submitTotal (evalLoop d p a qs) / ((qs.length : ℚ) * 10) * 100) = _
    by_cases h : qs.length = 0
    · rw [if_pos (by rw [h]; norm_num), if_pos h]
    · rw [if_neg (by simpa using h), if_neg h]
      rw [div_mul_eq_mul_div, mul_comm (submitTotal (evalLoop d p a qs)) 100,
        mul_comm ((qs.length : ℚ)) 10]
  · have hform : overallPercentage exampleDescEval "" exampleAnswers exampleQuiz =
        if ((exampleQuiz.length : ℚ) * 10 = 0) then (0 : ℚ)
        else submitTotal (evalLoop exampleDescEval "" exampleAnswers exampleQuiz) /
          ((exampleQuiz.length : ℚ) * 10) * 100 := rfl
    rw [hform, hsum]
    have h3 : (exampleQuiz.length : ℚ) = 3 := by norm_num [exampleQuiz]
    rw [h3]
    norm_num
  · rw [jsToFixed2]
    have : round ((170 / 3 : ℚ) * 100) = (5667 : ℤ) := by
      norm_num [round_eq]
    rw [this]
    norm_num

/-- C10: the evaluation loop produces exactly one result per stored question,
in the stored order (`evalLoop` is an order-preserving map, so lengths agree
and the i-th result evaluates the i-th question), for every request body; a
missing `answer_<id>` field is indistinguishable from an empty-string answer
and never an error; and a question of unrecognized type yields a score-0
entry with the diagnostic `Skipped: Unknown question type "<type>".`
feedback. -/
theorem submit_loop_shape :
    (∀ (descEval : StoredQ → String → String → EvalData) (pdfText : String)
      (answers : String → Option String) (qs : List StoredQ),
      (evalLoop descEval pdfText answers qs).length = qs.length) ∧
    (∀ descEval pdfText answers (qs : List StoredQ) (i : ℕ) (q : StoredQ),
      qs.get? i = some q →
      (evalLoop descEval pdfText answers qs).get? i =
        some (evalOne descEval pdfText answers q)) ∧
    (∀ descEval pdfText (a₁ a₂ : String → Option String) (q : StoredQ),
      a₁ ("answer_" ++ q.id) = none → a₂ ("answer_" ++ q.id) = some "" →
      evalOne descEval pdfText a₁ q = evalOne descEval pdfText a₂ q) ∧
    (∀ descEval pdfText answers (q : StoredQ),
      q.qtype ≠ "MCQ" → q.qtype ≠ "FIB" → q.qtype ≠ "Descriptive" →
      (evalOne descEval pdfText answers q).score = 0 ∧
      (evalOne descEval pdfText answers q).feedback =
        "Skipped: Unknown question type \"" ++ q.qtype ++ "\"." ∧
      (evalOne descEval pdfText answers q).question = q.question ∧
      (evalOne descEval pdfText answers q).user_answer =
        (answers ("answer_" ++ q.id)).getD "") := by
  refine ⟨?_, ?_, ?_, ?_⟩
  · intro d p a qs
    simp [evalLoop]
  · intro d p a qs i q h
    have h' : qs[i]? = some q := by simpa using h
    simp only [evalLoop, List.get?_eq_getElem?, List.getElem?_map, h']
    rfl
  · intro d p a₁ a₂ q h1 h2
    simp only [evalOne, h1, h2]
    rfl
  · intro d p a q h1 h2 h3
    refine ⟨?_, ?_, ?_, ?_⟩ <;>
      simp [evalOne, h1, h2, h3]

/-- C10 (witness): the shape theorem evaluated on the three-question quiz
with an empty request body, and on an unknown-type question. -/
theorem submit_loop_witness :
    (evalLoop exampleDescEval "" (fun _ => none) exampleQuiz).length = 3 ∧
    evalOne exampleDescEval "" (fun _ => none) ⟨"q9", "Q9", "Oral", "A", "E"⟩ =
      evalOne exampleDescEval "" (fun _ => some "") ⟨"q9", "Q9", "Oral", "A", "E"⟩ ∧
    (evalOne exampleDescEval "" (fun _ => none) ⟨"q9", "Q9", "Oral", "A", "E"⟩).score = 0 ∧
    (evalOne exampleDescEval "" (fun _ => none) ⟨"q9", "Q9", "Oral", "A", "E"⟩).feedback =
      "Skipped: Unknown question type \"Oral\"." :=
  ⟨(submit_loop_shape.1 exampleDescEval "" (fun _ => none) exampleQuiz).trans rfl,
   submit_loop_shape.2.2.1 exampleDescEval "" (fun _ => none) (fun _ => some "")
     ⟨"q9", "Q9", "Oral", "A", "E"⟩ rfl rfl,
   (submit_loop_shape.2.2.2 exampleDescEval "" (fun _ => none)
     ⟨"q9", "Q9", "Oral", "A", "E"⟩ (by decide) (by decide) (by decide)).1,
   ((submit_loop_shape.2.2.2 exampleDescEval "" (fun _ => none)
     ⟨"q9", "Q9", "Oral", "A", "E"⟩ (by decide) (by decide) (by decide)).2.1).trans
     (by decide)⟩

/-- C9: `POST /combined-exam` rejects with a validation error — before any
provider sub-call is attempted — exactly when the summed parsed counts are
non-positive or exceed 30; otherwise the three per-type sub-generations run
(those with positive counts, in MCQ/FIB/Descriptive order), a failing
sub-call contributes nothing while successful ones are concatenated in
order, and the whole operation fails with the generation-failure error
exactly when every attempted sub-call produced no questions. -/
theorem combined_exam_policy :
    (∀ (numMCQ numFIB numDesc : ℤ) (gMCQ gFIB gDesc : Except String (List Json)),
      (numMCQ + numFIB + numDesc ≤ 0 ∨ 30 < numMCQ + numFIB + numDesc) →
      combinedExam numMCQ numFIB numDesc gMCQ gFIB gDesc =
        (CombinedResp.validationErr, [])) ∧
    (∀ (numMCQ numFIB numDesc : ℤ) (gMCQ gFIB gDesc : Except String (List Json)),
      ¬(numMCQ + numFIB + numDesc ≤ 0 ∨ 30 < numMCQ + numFIB + numDesc) →
      ((combinedExam numMCQ numFIB numDesc gMCQ gFIB gDesc).1 =
          CombinedResp.genFailed ↔
        subGen numMCQ gMCQ = [] ∧ subGen numFIB gFIB = [] ∧
          subGen numDesc gDesc = []) ∧
      ((combinedExam numMCQ numFIB numDesc gMCQ gFIB gDesc).1 =
          CombinedResp.genFailed ∨
        (combinedExam numMCQ numFIB numDesc gMCQ gFIB gDesc).1 =
          CombinedResp.ok (subGen numMCQ gMCQ ++ subGen numFIB gFIB ++
            subGen numDesc gDesc)) ∧
      (combinedExam numMCQ numFIB numDesc gMCQ gFIB gDesc).2 =
        (if 0 < numMCQ then ["MCQ"] else []) ++
        (if 0 < numFIB then ["FIB"] else []) ++
        (if 0 < numDesc then ["Descriptive"] else [])) := by
  constructor
  · intro numMCQ numFIB numDesc gMCQ gFIB gDesc h
    have hc : (decide (numMCQ + numFIB + numDesc ≤ 0) ||
        decide (30 < numMCQ + numFIB + numDesc)) = true := by
      rcases h with h | h
      · simp [h]
      · simp [h]
    show (if (decide (numMCQ + numFIB + numDesc ≤ 0) ||
        decide (30 < numMCQ + numFIB + numDesc)) = true then
        ((CombinedResp.validationErr, []) : CombinedResp × List String)
      else _) = (CombinedResp.validationErr, [])
    rw [if_pos hc]
  · intro numMCQ numFIB numDesc gMCQ gFIB gDesc h
    push_neg at h
    have hc : (decide (numMCQ + numFIB + numDesc ≤ 0) ||
        decide (30 < numMCQ + numFIB + numDesc)) = false := by
      simp
      omega
    have hcomb : combinedExam numMCQ numFIB numDesc gMCQ gFIB gDesc =
        ((if (subGen numMCQ gMCQ ++ subGen numFIB gFIB ++ subGen numDesc gDesc).isEmpty
            ∧ 0 < numMCQ + numFIB + numDesc then CombinedResp.genFailed
          else CombinedResp.ok (subGen numMCQ gMCQ ++ subGen numFIB gFIB ++
            subGen numDesc gDesc)),
         (if 0 < numMCQ then ["MCQ"] else []) ++
         (if 0 < numFIB then ["FIB"] else []) ++
         (if 0 < numDesc then ["Descriptive"] else [])) := by
      show (if (decide (numMCQ + numFIB + numDesc ≤ 0) ||
          decide (30 < numMCQ + numFIB + numDesc)) = true then
          ((CombinedResp.validationErr, []) : CombinedResp × List String)
        else _) = _
      rw [if_neg (by simp [hc])]
    rw [hcomb]
    have h0 : 0 < numMCQ + numFIB + numDesc := by omega
    by_cases he : (subGen numMCQ gMCQ ++ subGen numFIB gFIB ++
        subGen numDesc gDesc).isEmpty = true
    · rw [if_pos ⟨he, h0⟩]
      refine ⟨?_, Or.inl rfl, rfl⟩
      simp only [List.isEmpty_iff, List.append_eq_nil] at he
      simp [he.1.1, he.1.2, he.2]
    · rw [if_neg (fun hh => he hh.1)]
      refine ⟨?_, Or.inr rfl, rfl⟩
      constructor
      · intro hcon
        exact absurd hcon (by simp)
      · intro ⟨h1, h2, h3⟩
        rw [h1, h2, h3] at he
        simp at he

/-- C9 (witness): a 31-question request is rejected with no sub-call
attempted; three failing sub-calls for a positive request fail the whole
operation; one successful sub-call keeps its questions. -/
theorem combined_exam_witness :
    combinedExam 31 0 0 (Except.ok [Json.null]) (Except.error "e")
        (Except.error "e") = (CombinedResp.validationErr, []) ∧
    (combinedExam 1 1 0 (Except.error "e") (Except.error "e")
        (Except.error "e")).1 = CombinedResp.genFailed ∧
    (combinedExam 1 1 0 (Except.ok [Json.null]) (Except.error "e")
        (Except.error "e")).1 = CombinedResp.ok [Json.null] := by
  refine ⟨?_, ?_, ?_⟩
  · exact combined_exam_policy.1 31 0 0 (Except.ok [Json.null])
      (Except.error "e") (Except.error "e") (Or.inr (by norm_num))
  · exact (combined_exam_policy.2 1 1 0 (Except.error "e") (Except.error "e")
      (Except.error "e") (by omega)).1.mpr ⟨rfl, rfl, rfl⟩
  · have h := combined_exam_policy.2 1 1 0 (Except.ok [Json.null])
      (Except.error "e") (Except.error "e") (by omega)
    rcases h.2.1 with h1 | h1
    · exfalso
      have h2 := (h.1.mp h1).1
      simp [subGen] at h2
    · rw [h1]
      rfl
